import Mathlib

/-!
Shallow embedding of `conda_forge_feedstock_check_solvable/mamba_solver.py`.

Strings are modelled as `List Char` (`Str`), so that Python's single-character
`str.split` operations become structurally recursive Lean functions.  Pure
helpers of the source (`_munge_req_star`, `_norm_spec`, `_clean_reqs`,
`_filter_problematic_reqs`, the run-export sanitization of `_get_run_export`,
`MambaSolver._get_run_exports`, the requirement pipeline of
`_is_recipe_solvable_on_platform`, the driver `_is_recipe_solvable`, and the
timeout wrapper `is_recipe_solvable`) are translated directly.  External
collaborators (the libmamba solver index, `conda_build` rendering,
`MatchSpec` parsing, `get_pin_from_build`, the network) are modelled as
oracle parameters or as already-parsed data, exactly at the interface the
source uses them.
-/

/-- Python strings, as lists of characters. -/
abbrev Str := List Char

/-- Convert a Lean string literal into the `Str` model. -/
def str (s : String) : Str := s.toList

/-- Python `s.split(c)` for a single-character separator `c`: the list of
chunks between occurrences of `c`.  Like Python, it never returns an empty
list (splitting the empty string gives `[[]]`). -/
def splitOnChar (c : Char) : Str → List Str
  | [] => [[]]
  | a :: rest =>
      let r := splitOnChar c rest
      if a = c then [] :: r
      else
        match r with
        | [] => [[a]]
        | h :: t => (a :: h) :: t

/-- Python `s.strip()`: remove leading and trailing whitespace. -/
def trimStr (s : Str) : Str :=
  ((s.dropWhile Char.isWhitespace).reverse.dropWhile Char.isWhitespace).reverse

/-- Python `sep.join(parts)` restricted to the way the source uses it:
concatenate `parts` with `sep` between consecutive elements. -/
def joinWith (sep : Str) : List Str → Str
  | [] => []
  | [x] => x
  | x :: y :: t => x ++ sep ++ joinWith sep (y :: t)

/-- Helper for Python `s.split()` (split on whitespace runs, dropping empty
chunks): accumulator-based word splitter. -/
def splitWSAux : Str → Str → List Str
  | [], acc => if acc = [] then [] else [acc.reverse]
  | c :: rest, acc =>
      if c.isWhitespace then
        if acc = [] then splitWSAux rest []
        else acc.reverse :: splitWSAux rest []
      else splitWSAux rest (c :: acc)

/-- Python `s.split()` with no argument: split on runs of whitespace. -/
def splitWS (s : Str) : List Str := splitWSAux s []

/-- Python `r.split(" ")[0]`: the chunk of `r` before the first space
(the whole of `r` when it has no space). -/
def firstToken (r : Str) : Str := (splitOnChar ' ' r).headD []

/-- Source line 70: comparator prefixes that suppress star-munging. -/
def REQ_START : List Str :=
  [str "!=", str "==", str ">", str "<", str ">=", str "<=", str "~="]

/-- The body of the inner loop of `_munge_req_star` (source lines 173-183)
applied to one already-split alternative `pp`: strip whitespace; keep the
alternative verbatim when it starts with a comparator or contains a `*`;
otherwise drop one leading `=` and append `.*`. -/
def mungeAlternative (pp0 : Str) : Str :=
  let pp := trimStr pp0
  if REQ_START.any (fun v => v.isPrefixOf pp) || pp.contains '*' then pp
  else (if (str "=").isPrefixOf pp then pp.drop 1 else pp) ++ str ".*"

/-- Source lines 162-194, `_munge_req_star`: split the requirement on `,`,
split each part on `|`, munge each alternative, and put the pieces back
together with the separators re-inserted after every non-final element
(which is exactly joining with the separator). -/
def _munge_req_star (req : Str) : Str :=
  joinWith (str ",") ((splitOnChar ',' req).map (fun p =>
    joinWith (str "|") ((splitOnChar '|' p).map mungeAlternative)))

/-- The data `_norm_spec` (source lines 197-214) extracts from
`MatchSpec(myspec)`: the exact name, and the raw version / build values.
`MatchSpec` parsing itself is an external collaborator; a `none` models a
missing (or falsy) raw value. -/
structure ParsedSpec where
  name : Str
  version : Option Str
  build : Option Str
deriving DecidableEq, Repr

/-- Source lines 197-214, `_norm_spec`: reject a spec that has a build
string but no version; otherwise rebuild `"name [version] [build]"` with
the version star-munged. -/
def _norm_spec (m : ParsedSpec) : Except String Str :=
  if m.build.isSome ∧ m.version = none then
    .error "spec has build but not version!"
  else
    .ok (joinWith (str " ")
      ([m.name]
        ++ (match m.version with
            | some v => [_munge_req_star v]
            | none => [])
        ++ (match m.build with
            | some b => [b]
            | none => [])))

/-! ### Run-export bundles (`DEFAULT_RUN_EXPORTS` and friends)

Python run-export bundles are dicts from bucket-name strings to sets of
tokens.  They are modelled as association lists (`RxDict`) so that the set
of keys of a bundle is itself observable data.  Sets of tokens are modelled
as lists with set-flavoured insert/union operations. -/

/-- A Python dict from bucket names to sets of tokens. -/
abbrev RxDict := List (Str × List Str)

/-- The key `"weak"`. -/
def kWeak : Str := str "weak"

/-- The key `"strong"`. -/
def kStrong : Str := str "strong"

/-- The key `"noarch"`. -/
def kNoarch : Str := str "noarch"

/-- The keys of `DEFAULT_RUN_EXPORTS`, in insertion order (source lines
54-58). -/
def bucketKeys : List Str := [kWeak, kStrong, kNoarch]

/-- Source lines 54-58: `DEFAULT_RUN_EXPORTS` — the three buckets, all
empty.  (`copy.deepcopy(DEFAULT_RUN_EXPORTS)` is just this value.) -/
def DEFAULT_RUN_EXPORTS : RxDict := [(kWeak, []), (kStrong, []), (kNoarch, [])]

/-- Python `d[k]` on a bundle whose keys always include `k`; missing keys
give the empty set (see the use sites: all bundles reaching a lookup carry
the three default keys). -/
def rxGet (d : RxDict) (k : Str) : List Str :=
  match d.find? (fun p => p.1 == k) with
  | some p => p.2
  | none => []

/-- In-place mutation `d[k] = f(d[k])` of a Python dict at an existing
key `k`, as a functional update. -/
def rxUpdate (d : RxDict) (k : Str) (f : List Str → List Str) : RxDict :=
  d.map (fun p => if p.1 = k then (p.1, f p.2) else p)

/-- Python `s.add(x)` on a set modelled as a duplicate-free list. -/
def setAdd (l : List Str) (x : Str) : List Str :=
  if x ∈ l then l else l ++ [x]

/-- Python `s.update(xs)` / `s |= xs` on a set modelled as a list. -/
def setUpdate (l : List Str) (xs : List Str) : List Str :=
  xs.foldl setAdd l

/-- The raw `rx` value sanitized by `_get_run_export` (source lines
420-445): the fetched run-export declaration is either a single string, a
list of token strings, or a mapping from bucket names to token lists. -/
inductive RawRx where
  | rawStr (s : Str)
  | rawList (ss : List Str)
  | rawDict (es : List (Str × List Str))
deriving DecidableEq, Repr

/-- Python truthiness of the raw declaration (the `if rx:` guard). -/
def rxTruthy : RawRx → Bool
  | .rawStr s => s ≠ []
  | .rawList ss => ss ≠ []
  | .rawDict es => es ≠ []

/-- `run_exports["weak"].add(k)` (source line 443). -/
def rxAddWeak (d : RxDict) (k : Str) : RxDict :=
  rxUpdate d kWeak (fun l => setAdd l k)

/-- `run_exports[k].update(rx[k])` for a recognized bucket key (source
line 435). -/
def rxUpdateBucket (d : RxDict) (k : Str) (vs : List Str) : RxDict :=
  rxUpdate d k (fun l => setUpdate l vs)

/-- A run-export bundle with given `weak`, `strong` and `noarch` buckets
(every bundle built from `DEFAULT_RUN_EXPORTS` keeps this shape). -/
def mk3 (w s n : List Str) : RxDict := [(kWeak, w), (kStrong, s), (kNoarch, n)]

/-- One iteration of the `for k in rx` loop of `_get_run_export` when `rx`
is (or has been turned into) a Python list: the element `k` is looked up
in `DEFAULT_RUN_EXPORTS`; a recognized bucket name makes the source
evaluate `rx[k]` — indexing a list with a string — which raises a
`TypeError`; any other element is added to the `weak` bucket. -/
def listStep (acc : RxDict) (k : Str) : Except String RxDict :=
  if k ∈ bucketKeys then
    Except.error "TypeError: list indices must be integers or slices, not str"
  else
    Except.ok (rxAddWeak acc k)

/-- The `for k in rx` loop of `_get_run_export` over a Python list. -/
def sanitizeKeysList (ks : List Str) : Except String RxDict :=
  ks.foldlM listStep DEFAULT_RUN_EXPORTS

/-- One iteration of the `for k in rx` loop of `_get_run_export` when `rx`
is a mapping: a recognized bucket name is unioned into the bundle, an
unrecognized key is added (as the key name itself) to the `weak` bucket. -/
def dictStep (acc : RxDict) (kv : Str × List Str) : RxDict :=
  if kv.1 ∈ bucketKeys then rxUpdateBucket acc kv.1 kv.2
  else rxAddWeak acc kv.1

/-- The `for k in rx` loop of `_get_run_export` over a mapping. -/
def sanitizeDict (es : List (Str × List Str)) : RxDict :=
  es.foldl dictStep DEFAULT_RUN_EXPORTS

/-- Source lines 419-445: the sanitization tail of `_get_run_export`.
The multi-source fetch that produces the raw `rx` (CEP-12 manifest,
metadata service, artifact download) is network-bound and external; this
function starts from the fetched raw declaration.  A single string is
first wrapped into a one-element list (`rx = [rx]`, line 425), after which
the list/dict loop of lines 427-443 runs over a deep copy of
`DEFAULT_RUN_EXPORTS`. -/
def _get_run_export_sanitize (rx : RawRx) : Except String RxDict :=
  if rxTruthy rx = false then .ok DEFAULT_RUN_EXPORTS
  else
    match rx with
    | .rawStr s => sanitizeKeysList [s]
    | .rawList ss => sanitizeKeysList ss
    | .rawDict es => .ok (sanitizeDict es)

/-- Source lines 569-597, `MambaSolver._get_run_exports`: aggregate the
cached per-package bundles of the linked packages whose name is among the
originally requested spec names and not ignored, filtering each bucket
against `ignore_run_exports`.  A link tuple is modelled as the package
name paired with the bundle `_get_run_export` returns for it (the cache
lookup itself is external). -/
def MambaSolver_get_run_exports (names ign_rex_from ign_rex : List Str)
    (link_tuples : List (Str × RxDict)) : RxDict :=
  link_tuples.foldl
    (fun acc lt =>
      if lt.1 ∈ names ∧ lt.1 ∉ ign_rex_from then
        let rx := lt.2.map (fun p => (p.1, p.2.filter (fun v => v ∉ ign_rex)))
        bucketKeys.foldl (fun a k => rxUpdate a k (fun l => setUpdate l (rxGet rx k))) acc
      else acc)
    DEFAULT_RUN_EXPORTS

/-- One entry of the `to_link` list produced by the solver transaction
(source lines 545-550): the decoded name, version and build of a linked
package, together with the run-export bundle the cache returns for it. -/
structure LinkEntry where
  name : Str
  version : Str
  build : Str
  rx : RxDict
deriving Repr

/-- The value `MambaSolver.solve` returns (source lines 564-567), with
`run_exports = none` modelling the three-element return used when
`get_run_exports` is false. -/
structure SolveRet where
  success : Bool
  err : Option Str
  solution : Option (List Str)
  run_exports : Option RxDict
deriving Repr

/-- Source lines 478-567, `MambaSolver.solve`: normalize every spec with
`_norm_spec` (a bad spec raises here, before the solver sees anything),
hand the normalized specs to the underlying solver (modelled as the oracle
`core`, returning satisfiability and the `explain_problems` text), and on
success decode the transaction's link entries into `"name version build"`
strings and optionally aggregate their run exports.  On failure the
solution is `None` and the requested run-export bundle is a fresh copy of
`DEFAULT_RUN_EXPORTS`. -/
def MambaSolver_solve (specs : List ParsedSpec) (get_run_exports : Bool)
    (ignore_run_exports_from ignore_run_exports : List Str)
    (core : List Str → Bool × Str) (links : List LinkEntry) :
    Except String SolveRet :=
  match specs.mapM _norm_spec with
  | .error e => .error e
  | .ok _specs =>
      if (core _specs).1 = false then
        .ok { success := false, err := some (core _specs).2, solution := none,
              run_exports := if get_run_exports then some DEFAULT_RUN_EXPORTS
                             else none }
      else
        .ok { success := true, err := none,
              solution := some (links.map (fun l =>
                joinWith (str " ") [l.name, l.version, l.build])),
              run_exports :=
                if get_run_exports then
                  some (MambaSolver_get_run_exports (_specs.map firstToken)
                    ignore_run_exports_from ignore_run_exports
                    (links.map (fun l => (l.name, l.rx))))
                else none }

/-! ### The requirement-propagation engine (`_is_recipe_solvable_on_platform`)

The per-output loop of `_is_recipe_solvable_on_platform` (source lines
1019-1091) is embedded phase by phase.  The two `MambaSolver` instances it
uses are modelled as oracles from a requirement list to a solve outcome,
and `conda_build.render.get_pin_from_build` as an oracle from a dependency
and the pin table to an optional pinned dependency (`none` modelling the
exception swallowed at source lines 917-920). -/

/-- The outcome of one `MambaSolver.solve` call as consumed by the engine:
on failure the source guarantees `solution = None` and an all-empty
run-export bundle. -/
structure SolveOutcome where
  success : Bool
  err : Option Str
  solution : Option (List Str)
  rx : RxDict
deriving Repr

/-- A solver handle, as the engine sees it. -/
abbrev SolverOracle := List Str → SolveOutcome

/-- The pin oracle: `get_pin_from_build m dep full_build_dep_versions`,
with `none` standing for the exception caught at source lines 917-920. -/
abbrev PinOracle := Str → List (Str × Str) → Option Str

/-- The rendered-output flags the engine reads from a `MetaData` object:
`m.is_cross`, `m.noarch`, `m.noarch_python`, `m.build_is_host`. -/
structure MetaFlags where
  is_cross : Bool
  noarch : Bool
  noarch_python : Bool
  build_is_host : Bool
deriving DecidableEq, Repr

/-- The requirement lists the engine reads from one rendered output
(source lines 1022-1026 and 1081-1085). -/
structure OutputReqs where
  build_req : List Str
  host_req : List Str
  run_req : List Str
  test_requires : List Str
  test_requirements : List Str
deriving Repr

/-- Source lines 886-888, `_clean_reqs`: drop every requirement whose
first space-separated token equals one of `names`. -/
def _clean_reqs (reqs names : List Str) : List Str :=
  reqs.filter (fun r => ¬ names.any (fun nm => firstToken r = nm))

/-- Source lines 891-898, `_filter_problematic_reqs`: drop requirements
whose first token is in the fixed deny list (just `parquet-cpp`). -/
def _filter_problematic_reqs (reqs : List Str) : List Str :=
  reqs.filter (fun r => firstToken r ∉ [str "parquet-cpp"])

/-- Source lines 901-923, `apply_pins`: build the pin table from the
build-resolved (or host-resolved when cross-compiling) dependencies, pin
each requirement through `get_pin_from_build` (falling back to the
original on an exception), then drop problematic requirements. -/
def apply_pins (reqs host_req build_req : List Str) (outnames : List Str)
    (m : MetaFlags) (pin : PinOracle) : List Str :=
  let pin_deps := if m.is_cross then host_req else build_req
  let full_build_dep_versions :=
    (_clean_reqs pin_deps outnames).map
      (fun dep => ((splitWS dep).headD [], joinWith (str " ") ((splitWS dep).drop 1)))
  let pinned_req := reqs.map (fun dep => (pin dep full_build_dep_versions).getD dep)
  _filter_problematic_reqs pinned_req

/-- Python `list(set(a) | b)`: the union of two requirement lists with set
semantics (the element order of the Python result is unspecified; this
embedding fixes first-occurrence order, and all statements proved about it
are order-insensitive membership and count facts). -/
def pyUnion (a b : List Str) : List Str := (a ++ b).dedup

/-- Source lines 1040-1053: how the build phase's run exports are merged
into the `host`/`run` requirement sets, returning the new
`(host_req, run_req)` pair. -/
def buildMerge (m : MetaFlags) (build_rx : RxDict) (host_req run_req : List Str) :
    List Str × List Str :=
  if m.is_cross then
    (pyUnion host_req (rxGet build_rx kStrong),
     if !(m.noarch || m.noarch_python) then pyUnion run_req (rxGet build_rx kStrong)
     else run_req)
  else
    if m.noarch || m.noarch_python then
      (host_req,
       if m.build_is_host then pyUnion run_req (rxGet build_rx kNoarch) else run_req)
    else
      let rr := pyUnion run_req (rxGet build_rx kStrong)
      if m.build_is_host then (host_req, pyUnion rr (rxGet build_rx kWeak))
      else (pyUnion host_req (rxGet build_rx kStrong), rr)

/-- What the build phase (source lines 1028-1053) leaves behind: its
solvability flag, its error contribution, the request actually sent to the
build solver (empty list of requests when the phase is skipped), the
solver's solution (for later pinning), and the updated `host`/`run`
requirement lists. -/
structure BuildPhaseOut where
  ok : Bool
  errs : List Str
  reqs : List (List Str)
  solution : Option (List Str)
  host_req : List Str
  run_req : List Str
deriving Repr

/-- Source lines 1028-1053: the build phase.  Skipped when the declared
build requirements are empty; otherwise the requirements are cleaned of
the recipe's own output names, solved on the build platform, and the
returned run exports are merged via `buildMerge`. -/
def buildPhase (outnames : List Str) (m : MetaFlags) (r : OutputReqs)
    (build_solver : SolverOracle) : BuildPhaseOut :=
  if r.build_req = [] then
    { ok := true, errs := [], reqs := [], solution := none,
      host_req := r.host_req, run_req := r.run_req }
  else
    let bc := _clean_reqs r.build_req outnames
    let o := build_solver bc
    let hr := buildMerge m o.rx r.host_req r.run_req
    { ok := o.success, errs := o.err.toList, reqs := [bc], solution := o.solution,
      host_req := hr.1, run_req := hr.2 }

/-- What the host phase (source lines 1055-1071) leaves behind. -/
structure HostPhaseOut where
  ok : Bool
  errs : List Str
  reqs : List (List Str)
  solution : Option (List Str)
  run_req : List Str
deriving Repr

/-- Source lines 1055-1071: the host phase.  Skipped when the (possibly
build-merged) host requirements are empty; otherwise cleaned, solved on
the target platform, and when cross-compiling the host run exports
(`noarch` for platform-independent outputs, `weak` otherwise) are merged
into the run requirements. -/
def hostPhase (outnames : List Str) (m : MetaFlags) (host_req run_req : List Str)
    (solver : SolverOracle) : HostPhaseOut :=
  if host_req = [] then
    { ok := true, errs := [], reqs := [], solution := none, run_req := run_req }
  else
    let hc := _clean_reqs host_req outnames
    let o := solver hc
    let run2 :=
      if m.is_cross then
        if m.noarch || m.noarch_python then pyUnion run_req (rxGet o.rx kNoarch)
        else pyUnion run_req (rxGet o.rx kWeak)
      else run_req
    { ok := o.success, errs := o.err.toList, reqs := [hc], solution := o.solution,
      run_req := run2 }

/-- What the run phase (source lines 1073-1079) leaves behind; `run_req`
is the pinned and cleaned list (the run-phase solve does not replace it
with the solver's solution). -/
structure RunPhaseOut where
  ok : Bool
  errs : List Str
  reqs : List (List Str)
  run_req : List Str
deriving Repr

/-- Source lines 1073-1079: the run phase.  Skipped when the (possibly
merged) run requirements are empty; otherwise pinned against the resolved
build/host dependencies, cleaned, and solved. -/
def runPhase (outnames : List Str) (m : MetaFlags) (run_req h_pins b_pins : List Str)
    (solver : SolverOracle) (pin : PinOracle) : RunPhaseOut :=
  if run_req = [] then
    { ok := true, errs := [], reqs := [], run_req := run_req }
  else
    let rp := apply_pins run_req h_pins b_pins outnames m pin
    let rc := _clean_reqs rp outnames
    let o := solver rc
    { ok := o.success, errs := o.err.toList, reqs := [rc], run_req := rc }

/-- What the test phase (source lines 1081-1091) leaves behind. -/
structure TestPhaseOut where
  ok : Bool
  errs : List Str
  reqs : List (List Str)
deriving Repr

/-- Source lines 1081-1091: the test phase.  Its input is the declared
test requirements concatenated with the current run requirement list;
skipped when that concatenation is empty, otherwise cleaned and solved. -/
def testPhase (outnames : List Str) (tst_req : List Str)
    (solver : SolverOracle) : TestPhaseOut :=
  if tst_req = [] then
    { ok := true, errs := [], reqs := [] }
  else
    let tc := _clean_reqs tst_req outnames
    let o := solver tc
    { ok := o.success, errs := o.err.toList, reqs := [tc] }

/-- Source lines 1019-1091: the per-output body of
`_is_recipe_solvable_on_platform` — build, host, run and test phases in
order.  Returns the output's solvability (the AND of the attempted
phases), the accumulated error strings, and the list of requirement lists
actually passed to a solver. -/
def checkOutput (outnames : List Str) (m : MetaFlags) (r : OutputReqs)
    (build_solver solver : SolverOracle) (pin : PinOracle) :
    Bool × List Str × List (List Str) :=
  let b := buildPhase outnames m r build_solver
  let h := hostPhase outnames m b.host_req b.run_req solver
  let ru := runPhase outnames m h.run_req (h.solution.getD []) (b.solution.getD [])
    solver pin
  let t := testPhase outnames (r.test_requires ++ r.test_requirements ++ ru.run_req)
    solver
  (b.ok && h.ok && ru.ok && t.ok,
   b.errs ++ h.errs ++ ru.errs ++ t.errs,
   b.reqs ++ h.reqs ++ ru.reqs ++ t.reqs)

/-! ### The variant iteration driver (`_is_recipe_solvable`) and the
bounded-execution wrapper (`is_recipe_solvable`) -/

/-- Source line 862: the architecture tokens recognized in a variant
configuration file name. -/
def knownArchs : List Str :=
  [str "32", str "aarch64", str "ppc64le", str "armv7l", str "arm64"]

/-- Source lines 859-863: derive `(platform, arch)` from the basename of a
variant configuration file by splitting on `_`.  `_parts[1]` raises an
`IndexError` when the basename contains no underscore. -/
def derivePlatformArch (basename : Str) : Except String (Str × Str) :=
  match splitOnChar '_' basename with
  | p :: a :: _ => .ok (p, if a ∈ knownArchs then a else str "64")
  | _ => .error "IndexError: list index out of range"

/-- Python `basename.rsplit(".", maxsplit=1)[0]` (source line 877): strip
the last dot-suffix, or keep the whole name when it has no dot. -/
def stripLastDotSuffix (s : Str) : Str :=
  if s.contains '.' then ((s.reverse.dropWhile (fun c => c ≠ '.')).drop 1).reverse
  else s

/-- The error message of source lines 832-836 (no variant configs). -/
def errNoCbc : Str :=
  str "No `.ci_support/*.yaml` files found! This can happen when a rerender results in no builds for a recipe (e.g., a recipe is python 2.7 only). This attempted migration is being reported as not solvable."

/-- The error message of source lines 841-844 (no recipe file). -/
def errNoMeta : Str :=
  str "No `recipe/meta.yaml` file found! This issue is quite weird and someone should investigate!"

/-- The per-variant work the driver delegates (rendering plus
`_is_recipe_solvable_on_platform`), as an oracle from the variant
basename, platform and arch to `(_solvable, _errors)`. -/
abbrev VariantOracle := Str → Str → Str → Bool × List Str

/-- The result triple of a recipe check:
`(solvable, errors, solvable_by_variant)`. -/
abbrev CheckTriple := Bool × List Str × List (Str × Bool)

/-- One iteration of the variant loop of `_is_recipe_solvable` (source
lines 851-879): derive platform/arch from the variant basename (an
`IndexError` propagates), run the per-variant work, AND the solvability
flag into the accumulator, append the variant-prefixed errors, and record
the per-variant verdict. -/
def driverStep (variant : VariantOracle) (acc : CheckTriple) (cbc : Str) :
    Except String CheckTriple :=
  match derivePlatformArch cbc with
  | .error e => .error e
  | .ok pa =>
      .ok (acc.1 && (variant cbc pa.1 pa.2).1,
           acc.2.1 ++ ((variant cbc pa.1 pa.2).2).map
             (fun e => stripLastDotSuffix cbc ++ str ": " ++ e),
           acc.2.2 ++ [(stripLastDotSuffix cbc, (variant cbc pa.1 pa.2).1)])

/-- Source lines 813-883, `_is_recipe_solvable`: return immediately (with
one error and an empty per-variant map) when there are no variant
configuration files or no `recipe/meta.yaml`; otherwise fold `driverStep`
over the variants.  `cbcs` is the sorted list of variant configuration
basenames; `has_meta` models the `os.path.exists` check. -/
def _is_recipe_solvable (cbcs : List Str) (has_meta : Bool)
    (variant : VariantOracle) : Except String CheckTriple :=
  if cbcs.length = 0 then .ok (false, [errNoCbc], [])
  else if has_meta = false then .ok (false, [errNoMeta], [])
  else
    cbcs.foldlM (driverStep variant) (true, [], [])

/-- What the isolated worker delivers through the pipe (source lines
709-721, `_func`): either the driver's result or the raised exception. -/
inductive WorkerMsg where
  | result (t : CheckTriple)
  | exc (e : Str)

/-- Python `repr(res)` of the exception object sent back by the worker
(source line 782); its exact text is irrelevant to every claim, only that
it is a single string. -/
def reprExc (e : Str) : Str := e

/-- Source lines 724-810, `is_recipe_solvable`: with a non-zero timeout
the work runs in an isolated worker; `worker = none` models
`parent_conn.poll(timeout)` returning false (no result within budget) and
yields `(True, [], {})`; a delivered exception yields
`(False, [repr(res)], {})`; a delivered result is passed through.  With a
zero/None timeout the driver runs in-process (`direct` models that
in-process result). -/
def is_recipe_solvable (timeout : Nat) (worker : Option WorkerMsg)
    (direct : CheckTriple) : CheckTriple :=
  if timeout ≠ 0 then
    match worker with
    | some (.result t) => t
    | some (.exc e) => (false, [reprExc e], [])
    | none => (true, [], [])
  else direct

/-! ## Helper lemmas -/

theorem splitOnChar_ne_nil (c : Char) (s : Str) : splitOnChar c s ≠ [] := by
  induction s with
  | nil => simp [splitOnChar]
  | cons a rest ih =>
      simp only [splitOnChar]
      split
      · simp
      · rcases h : splitOnChar c rest with _ | ⟨hd, tl⟩
        · exact absurd h ih
        · simp [h]

theorem splitOnChar_of_not_mem {c : Char} {s : Str} (h : c ∉ s) :
    splitOnChar c s = [s] := by
  induction s with
  | nil => rfl
  | cons a rest ih =>
      simp only [List.mem_cons, not_or] at h
      simp only [splitOnChar, if_neg (Ne.symm h.1), ih h.2]

theorem splitOnChar_append_cons (c : Char) (a b : Str) (h : c ∉ a) :
    splitOnChar c (a ++ c :: b) = a :: splitOnChar c b := by
  induction a with
  | nil => simp [splitOnChar]
  | cons x rest ih =>
      simp only [List.mem_cons, not_or] at h
      simp only [List.cons_append, splitOnChar, if_neg (Ne.symm h.1), List.append_eq]
      rw [ih h.2]

theorem mem_pyUnion {x : Str} {a b : List Str} :
    x ∈ pyUnion a b ↔ x ∈ a ∨ x ∈ b := by
  simp [pyUnion]

theorem mem_setAdd {x y : Str} {l : List Str} :
    x ∈ setAdd l y ↔ x ∈ l ∨ x = y := by
  unfold setAdd
  split
  · rename_i h
    constructor
    · exact Or.inl
    · rintro (hx | rfl)
      · exact hx
      · exact h
  · simp

theorem mem_setUpdate {x : Str} {l xs : List Str} :
    x ∈ setUpdate l xs ↔ x ∈ l ∨ x ∈ xs := by
  unfold setUpdate
  induction xs generalizing l with
  | nil => simp
  | cons y ys ih =>
      simp only [List.foldl_cons, ih, mem_setAdd, List.mem_cons]
      tauto

theorem mem_clean_reqs {x : Str} {reqs names : List Str} :
    x ∈ _clean_reqs reqs names ↔ x ∈ reqs ∧ firstToken x ∉ names := by
  simp [_clean_reqs, List.mem_filter]

theorem clean_reqs_first_token {x : Str} {reqs names : List Str}
    (h : x ∈ _clean_reqs reqs names) : ∀ nm ∈ names, firstToken x ≠ nm := by
  intro nm hnm heq
  exact (mem_clean_reqs.mp h).2 (heq ▸ hnm)

/-! ## Claim C2: bounded-execution wrapper semantics -/

/-- C2: with a non-zero timeout, a worker that delivers nothing within the
budget yields `(True, [], {})` regardless of what it was computing, and a
worker that delivers a raised exception yields `(False, [repr(exc)], {})`
— a single error string and an empty per-variant map. -/
theorem claim_C2 (timeout : Nat) (ht : timeout ≠ 0) (direct : CheckTriple)
    (e : Str) :
    is_recipe_solvable timeout none direct = (true, [], []) ∧
    is_recipe_solvable timeout (some (.exc e)) direct = (false, [reprExc e], []) := by
  simp [is_recipe_solvable, ht]

/-- C2 witness: the default 600-second budget, timing out, and an
exception delivery at a concrete in-process result. -/
theorem claim_C2_witness :
    is_recipe_solvable 600 none (false, [str "x"], []) = (true, [], []) ∧
    is_recipe_solvable 600 (some (.exc (str "boom"))) (false, [str "x"], []) =
      (false, [reprExc (str "boom")], []) :=
  claim_C2 600 (by decide) (false, [str "x"], []) (str "boom")

/-! ## Claim C7: configuration-error early exits of the driver -/

/-- C7: with no variant-configuration files, or with configuration files
but no `recipe/meta.yaml`, the driver returns `(False, [one descriptive
error], {})` immediately; the per-variant oracle (hence any solver) is
never consulted — the result is the same for every `v`. -/
theorem claim_C7 (cbcs : List Str) (has_meta : Bool) (v : VariantOracle) :
    (cbcs = [] → _is_recipe_solvable cbcs has_meta v = .ok (false, [errNoCbc], [])) ∧
    (cbcs ≠ [] → has_meta = false →
      _is_recipe_solvable cbcs has_meta v = .ok (false, [errNoMeta], [])) := by
  constructor
  · rintro rfl
    rfl
  · intro hne hm
    subst hm
    have hlen : cbcs.length ≠ 0 := by
      simpa [List.length_eq_zero] using hne
    simp [_is_recipe_solvable, hlen]

/-- C7 witness: a concrete empty variant list, and a concrete non-empty
variant list with the recipe file missing. -/
theorem claim_C7_witness :
    _is_recipe_solvable [] true (fun _ _ _ => (true, [])) =
      .ok (false, [errNoCbc], []) ∧
    _is_recipe_solvable [str "linux_64_.yaml"] false (fun _ _ _ => (true, [])) =
      .ok (false, [errNoMeta], []) :=
  ⟨(claim_C7 [] true _).1 rfl,
   (claim_C7 [str "linux_64_.yaml"] false _).2 (by decide) rfl⟩

/-! ## Claim C1: build-phase run-export merging (non-cross case) -/

/-- C1 counterexample: a non-cross-compiling, non-platform-independent
output with `build_is_host` false, a non-empty build requirement set that
solves successfully, and a build-phase `weak` run-export `"w"`.  The claim
says the weak exports are merged into the host requirement set; the code
leaves the host requirement set untouched in this branch (it merges the
`strong` exports there instead), so the resulting host requirements are
empty. -/
theorem claim_C1_counterexample :
    (buildPhase [] ⟨false, false, false, false⟩ ⟨[str "b"], [], [], [], []⟩
        (fun _ => ⟨true, none, some [],
          [(kWeak, [str "w"]), (kStrong, []), (kNoarch, [])]⟩)).host_req = [] ∧
    str "w" ∈ rxGet [(kWeak, [str "w"]), (kStrong, []), (kNoarch, [])] kWeak := by
  constructor
  · rfl
  · decide

/-! ## Claim C3 counterexample: version broadening is not a no-op on a
comparator spec carrying surrounding whitespace -/

/-- C3 counterexample: `">=1.0 "` (trailing blank) starts with the
explicit comparator `">="` and contains no `*`, no `,` and no `|`, so the
claim says broadening returns it unchanged; the code strips the blank and
returns `">=1.0"`. -/
theorem claim_C3_counterexample :
    (str ">=").isPrefixOf (str ">=1.0 ") = true ∧
    ',' ∉ str ">=1.0 " ∧ '|' ∉ str ">=1.0 " ∧
    _munge_req_star (str ">=1.0 ") = str ">=1.0" ∧
    _munge_req_star (str ">=1.0 ") ≠ str ">=1.0 " := by
  refine ⟨by decide, by decide, by decide, by rfl, by decide⟩

/-! ## Claim C4 counterexample: the test-phase requirement list can
contain duplicates -/

/-- C4 counterexample: an output declaring `"numpy"` both as a run
requirement and as a test requirement.  The run phase is solvable, leaving
`"numpy"` as the run-phase requirement list; the test-phase input is the
plain concatenation of the declared test requirements and that list, so
the requirement list passed to the test-phase solve is
`["numpy", "numpy"]` — `"numpy"` appears twice, not exactly once. -/
theorem claim_C4_counterexample :
    (checkOutput [str "out"] ⟨false, false, false, false⟩
        ⟨[], [], [str "numpy"], [str "numpy"], []⟩
        (fun _ => ⟨true, none, some [], DEFAULT_RUN_EXPORTS⟩)
        (fun _ => ⟨true, none, some [], DEFAULT_RUN_EXPORTS⟩)
        (fun _ _ => none)).2.2 = [[str "numpy"], [str "numpy", str "numpy"]] ∧
    List.count (str "numpy") [str "numpy", str "numpy"] = 2 := by
  refine ⟨by rfl, by decide⟩

/-! ## Claim C6 counterexample: the platform/arch derivation fails on a
variant file name with no underscore -/

/-- C6 counterexample: a variant-configuration basename with no
underscore.  `_parts[1]` raises an `IndexError`, which escapes the driver
instead of producing a result triple. -/
theorem claim_C6_counterexample :
    _is_recipe_solvable [str "linux.yaml"] true (fun _ _ _ => (true, [])) =
      .error "IndexError: list index out of range" := by
  rfl

/-! ## Claim C8 counterexample: a single-string declaration equal to a
bucket name crashes the sanitizer -/

/-- C8 counterexample: the single-string declaration `"weak"`.  The source
wraps it into the list `["weak"]` and then, because `"weak"` is a
recognized bucket name, evaluates `rx["weak"]` — indexing a list with a
string — raising a `TypeError` instead of producing a one-entry `weak`
bucket. -/
theorem claim_C8_counterexample :
    _get_run_export_sanitize (.rawStr (str "weak")) =
      .error "TypeError: list indices must be integers or slices, not str" := by
  rfl

/-- C1 amended: in the build phase, for a non-cross-compiling,
non-platform-independent output whose build requirement set is non-empty
and solves successfully, the `strong` run-exports are merged into the run
requirement set; when build-and-host are declared identical the `weak`
run-exports are additionally merged into the run requirement set, and
otherwise the `strong` (not the `weak`) run-exports are merged into the
host requirement set. -/
theorem claim_C1_amended (outnames : List Str) (m : MetaFlags) (r : OutputReqs)
    (bs : SolverOracle)
    (hne : r.build_req ≠ [])
    (hcross : m.is_cross = false)
    (hnoarch : (m.noarch || m.noarch_python) = false)
    (_hsucc : (bs (_clean_reqs r.build_req outnames)).success = true)
    (x : Str) :
    (x ∈ (buildPhase outnames m r bs).run_req ↔
      x ∈ r.run_req ∨
        x ∈ rxGet (bs (_clean_reqs r.build_req outnames)).rx kStrong ∨
        (m.build_is_host = true ∧
          x ∈ rxGet (bs (_clean_reqs r.build_req outnames)).rx kWeak)) ∧
    (x ∈ (buildPhase outnames m r bs).host_req ↔
      x ∈ r.host_req ∨
        (m.build_is_host = false ∧
          x ∈ rxGet (bs (_clean_reqs r.build_req outnames)).rx kStrong)) := by
  simp only [buildPhase, buildMerge, if_neg hne, hcross, hnoarch,
    Bool.false_eq_true, if_false]
  cases hbh : m.build_is_host with
  | false =>
      simp only [Bool.false_eq_true, if_false, mem_pyUnion, false_and, or_false,
        true_and, and_true]
  | true =>
      simp only [Bool.true_eq_false, if_true, mem_pyUnion, false_and, or_false,
        true_and, and_true, or_assoc]

/-- C1 amended witness: a concrete non-cross, non-noarch output with
`build_is_host` true; the weak export `"w"` ends up in the run
requirement set. -/
theorem claim_C1_amended_witness :
    str "w" ∈ (buildPhase [] ⟨false, false, false, true⟩
      ⟨[str "b"], [], [], [], []⟩
      (fun _ => ⟨true, none, some [],
        [(kWeak, [str "w"]), (kStrong, [str "s"]), (kNoarch, [])]⟩)).run_req := by
  have h := claim_C1_amended [] ⟨false, false, false, true⟩
    ⟨[str "b"], [], [], [], []⟩
    (fun _ => ⟨true, none, some [],
      [(kWeak, [str "w"]), (kStrong, [str "s"]), (kNoarch, [])]⟩)
    (by decide) rfl rfl rfl (str "w")
  exact h.1.mpr (Or.inr (Or.inr ⟨rfl, by decide⟩))

theorem joinWith_cons (sep x : Str) {l : List Str} (h : l ≠ []) :
    joinWith sep (x :: l) = x ++ sep ++ joinWith sep l := by
  cases l with
  | nil => exact absurd rfl h
  | cons y t => rfl

theorem map_split_ne_nil {α : Type} (f : Str → α) (c : Char) (b : Str) :
    (splitOnChar c b).map f ≠ [] := by
  simp [List.map_eq_nil_iff, splitOnChar_ne_nil]

theorem munge_inner_single (t : Str) (hp : '|' ∉ t) :
    joinWith (str "|") ((splitOnChar '|' t).map mungeAlternative) =
      mungeAlternative t := by
  rw [splitOnChar_of_not_mem hp]
  rfl

theorem munge_no_comma (b : Str) (hcb : ',' ∉ b) :
    _munge_req_star b =
      joinWith (str "|") ((splitOnChar '|' b).map mungeAlternative) := by
  rw [_munge_req_star, splitOnChar_of_not_mem hcb]
  rfl

/-- C3 amended: version broadening operates per alternative with each
alternative stripped of surrounding whitespace first.  A single
alternative (no `,`, no `|`) is processed by the per-alternative rule; a
stripped alternative starting with an explicit comparator or containing a
`*` is kept as the stripped text; a bare stripped version gets `.​*`
appended after dropping one leading `=`; and for multi-alternative specs
the broadening is applied independently to each alternative with the `,`
and `|` separators preserved. -/
theorem claim_C3_amended :
    (∀ t : Str, ',' ∉ t → '|' ∉ t → _munge_req_star t = mungeAlternative t) ∧
    (∀ t : Str,
      (REQ_START.any (fun v => v.isPrefixOf (trimStr t))
        || (trimStr t).contains '*') = true →
      mungeAlternative t = trimStr t) ∧
    (∀ t : Str,
      (REQ_START.any (fun v => v.isPrefixOf (trimStr t))
        || (trimStr t).contains '*') = false →
      mungeAlternative t =
        (if (str "=").isPrefixOf (trimStr t) then (trimStr t).drop 1
         else trimStr t) ++ str ".*") ∧
    (∀ a b : Str, ',' ∉ a →
      _munge_req_star (a ++ ',' :: b) =
        _munge_req_star a ++ ',' :: _munge_req_star b) ∧
    (∀ a b : Str, ',' ∉ a → '|' ∉ a → ',' ∉ b →
      _munge_req_star (a ++ '|' :: b) =
        _munge_req_star a ++ '|' :: _munge_req_star b) := by
  refine ⟨?_, ?_, ?_, ?_, ?_⟩
  · intro t hc hp
    rw [munge_no_comma t hc, munge_inner_single t hp]
  · intro t h
    rw [mungeAlternative]
    simp only [h, if_true]
  · intro t h
    rw [mungeAlternative]
    simp only [h, Bool.false_eq_true, if_false]
  · intro a b hc
    rw [_munge_req_star, splitOnChar_append_cons ',' a b hc, List.map_cons]
    rw [joinWith_cons _ _ (map_split_ne_nil _ ',' b)]
    rw [munge_no_comma a hc]
    rw [_munge_req_star]
    simp only [List.append_assoc]
    rfl
  · intro a b hca hpa hcb
    have hwhole : ',' ∉ a ++ '|' :: b := by
      simp only [List.mem_append, List.mem_cons]
      rintro (h | h | h)
      · exact hca h
      · exact absurd h (by decide)
      · exact hcb h
    rw [_munge_req_star, splitOnChar_of_not_mem hwhole]
    simp only [List.map_cons, List.map_nil, joinWith]
    rw [splitOnChar_append_cons '|' a b hpa, List.map_cons]
    rw [joinWith_cons _ _ (map_split_ne_nil _ '|' b)]
    rw [munge_no_comma a hca, munge_inner_single a hpa, munge_no_comma b hcb]
    simp only [List.append_assoc]
    rfl

/-- C3 amended witness: a two-alternative spec with whitespace around the
alternatives: per-alternative broadening with the separator preserved. -/
theorem claim_C3_amended_witness :
    _munge_req_star (str ">=1.0 " ++ ',' :: str " 2.2") =
      _munge_req_star (str ">=1.0 ") ++ ',' :: _munge_req_star (str " 2.2") :=
  claim_C3_amended.2.2.2.1 (str ">=1.0 ") (str " 2.2") (by decide)

theorem norm_spec_error_iff (m : ParsedSpec) :
    (∃ e, _norm_spec m = .error e) ↔ (m.build.isSome ∧ m.version = none) := by
  unfold _norm_spec
  by_cases h : m.build.isSome ∧ m.version = none <;> simp [h]

theorem mapM_norm_spec_error {specs : List ParsedSpec}
    (h : ∃ sp ∈ specs, sp.build.isSome ∧ sp.version = none) :
    ∃ e, specs.mapM _norm_spec = (.error e : Except String (List Str)) := by
  induction specs with
  | nil => simp at h
  | cons sp t ih =>
      by_cases hbad : sp.build.isSome ∧ sp.version = none
      · obtain ⟨e, he⟩ := (norm_spec_error_iff sp).mpr hbad
        exact ⟨e, by rw [List.mapM_cons, he]; rfl⟩
      · have hmem : ∃ sp ∈ t, sp.build.isSome ∧ sp.version = none := by
          obtain ⟨sp', hsp', hsp'bad⟩ := h
          rcases List.mem_cons.mp hsp' with rfl | hmem
          · exact absurd hsp'bad hbad
          · exact ⟨sp', hmem, hsp'bad⟩
        obtain ⟨e, he⟩ := ih hmem
        cases hn : _norm_spec sp with
        | error e' => exact ⟨e', by rw [List.mapM_cons, hn]; rfl⟩
        | ok v => exact ⟨e, by rw [List.mapM_cons, hn, he]; rfl⟩

/-- C9: `_norm_spec` fails exactly on a spec carrying a build string but no
version; any requirement list containing such a spec makes
`MambaSolver.solve` raise during normalization, before the underlying
solver is consulted (the error does not depend on `core` or `links`). -/
theorem claim_C9 :
    (∀ m : ParsedSpec,
      (∃ e, _norm_spec m = .error e) ↔ (m.build.isSome ∧ m.version = none)) ∧
    (∀ (specs : List ParsedSpec) (gre : Bool) (irf ir : List Str)
        (core : List Str → Bool × Str) (links : List LinkEntry),
      (∃ sp ∈ specs, sp.build.isSome ∧ sp.version = none) →
      ∃ e, MambaSolver_solve specs gre irf ir core links = .error e ∧
        ∀ (core' : List Str → Bool × Str) (links' : List LinkEntry),
          MambaSolver_solve specs gre irf ir core' links' = .error e) := by
  constructor
  · exact norm_spec_error_iff
  · intro specs gre irf ir core links h
    obtain ⟨e, he⟩ := mapM_norm_spec_error h
    refine ⟨e, ?_, ?_⟩
    · unfold MambaSolver_solve
      rw [he]
    · intro core' links'
      unfold MambaSolver_solve
      rw [he]

/-- C9 witness: a concrete spec with a build string and no version is
rejected before a trivially-succeeding solver could run. -/
theorem claim_C9_witness :
    ∃ e, MambaSolver_solve [⟨str "foo", none, some (str "h1")⟩] true [] []
        (fun _ => (true, str "")) [] = .error e ∧
      ∀ (core' : List Str → Bool × Str) (links' : List LinkEntry),
        MambaSolver_solve [⟨str "foo", none, some (str "h1")⟩] true [] []
          core' links' = .error e :=
  claim_C9.2 [⟨str "foo", none, some (str "h1")⟩] true [] []
    (fun _ => (true, str "")) []
    ⟨⟨str "foo", none, some (str "h1")⟩, by decide, by decide⟩

theorem rxUpdate_keys (d : RxDict) (k : Str) (f : List Str → List Str) :
    (rxUpdate d k f).map Prod.fst = d.map Prod.fst := by
  simp only [rxUpdate, List.map_map]
  apply List.map_congr_left
  intro p _
  by_cases h : p.1 = k <;> simp [h]

theorem keysList_foldlM_keys (ks : List Str) :
    ∀ acc d : RxDict, ks.foldlM listStep acc = .ok d →
      d.map Prod.fst = acc.map Prod.fst := by
  induction ks with
  | nil =>
      intro acc d h
      simp only [List.foldlM_nil] at h
      cases h
      rfl
  | cons k t ih =>
      intro acc d h
      simp only [List.foldlM_cons] at h
      unfold listStep at h
      by_cases hk : k ∈ bucketKeys
      · rw [if_pos hk] at h
        exact Except.noConfusion h
      · rw [if_neg hk] at h
        have h' : t.foldlM listStep (rxAddWeak acc k) = .ok d := h
        rw [ih _ _ h', rxAddWeak, rxUpdate_keys]

theorem dict_foldl_keys (es : List (Str × List Str)) :
    ∀ acc : RxDict,
      (es.foldl dictStep acc).map Prod.fst = acc.map Prod.fst := by
  induction es with
  | nil => intro acc; rfl
  | cons kv t ih =>
      intro acc
      rw [List.foldl_cons, ih]
      unfold dictStep
      by_cases h : kv.1 ∈ bucketKeys
      · rw [if_pos h, rxUpdateBucket, rxUpdate_keys]
      · rw [if_neg h, rxAddWeak, rxUpdate_keys]

theorem foldl_rxUpdate_keys (g : Str → List Str → List Str) (ks : List Str) :
    ∀ acc : RxDict,
      ((ks.foldl (fun a k => rxUpdate a k (g k)) acc).map Prod.fst) =
        acc.map Prod.fst := by
  induction ks with
  | nil => intro acc; rfl
  | cons k t ih =>
      intro acc
      rw [List.foldl_cons, ih, rxUpdate_keys]

theorem get_run_exports_foldl_keys (names ign_rex_from ign_rex : List Str)
    (lts : List (Str × RxDict)) :
    ∀ acc : RxDict,
      ((lts.foldl
        (fun acc lt =>
          if lt.1 ∈ names ∧ lt.1 ∉ ign_rex_from then
            let rx := lt.2.map (fun p => (p.1, p.2.filter (fun v => v ∉ ign_rex)))
            bucketKeys.foldl
              (fun a k => rxUpdate a k (fun l => setUpdate l (rxGet rx k))) acc
          else acc) acc).map Prod.fst) = acc.map Prod.fst := by
  induction lts with
  | nil => intro acc; rfl
  | cons lt t ih =>
      intro acc
      rw [List.foldl_cons, ih]
      by_cases h : lt.1 ∈ names ∧ lt.1 ∉ ign_rex_from
      · rw [if_pos h]
        exact foldl_rxUpdate_keys _ bucketKeys acc
      · rw [if_neg h]

/-- C10: every run-export bundle the system produces — the sanitized
result of `_get_run_export`, the aggregate of
`MambaSolver._get_run_exports`, and the bundle `solve` returns on an
unsuccessful solve with run exports requested — carries exactly the three
keys `weak`, `strong`, `noarch` (in that order); in particular an
unsatisfiable solve with `get_run_exports=True` yields
`DEFAULT_RUN_EXPORTS`, whose three buckets are all empty. -/
theorem claim_C10 :
    (∀ (rx : RawRx) (d : RxDict), _get_run_export_sanitize rx = .ok d →
      d.map Prod.fst = bucketKeys) ∧
    (∀ (names irf ir : List Str) (lts : List (Str × RxDict)),
      (MambaSolver_get_run_exports names irf ir lts).map Prod.fst = bucketKeys) ∧
    (∀ (specs : List ParsedSpec) (irf ir : List Str)
        (core : List Str → Bool × Str) (links : List LinkEntry) (r : SolveRet),
      (∀ ns, (core ns).1 = false) →
      MambaSolver_solve specs true irf ir core links = .ok r →
      r.success = false ∧ r.run_exports = some DEFAULT_RUN_EXPORTS) ∧
    DEFAULT_RUN_EXPORTS.map Prod.snd = [[], [], []] := by
  refine ⟨?_, ?_, ?_, rfl⟩
  · intro rx d h
    unfold _get_run_export_sanitize at h
    by_cases ht : rxTruthy rx = false
    · rw [if_pos ht] at h
      cases h
      rfl
    · rw [if_neg ht] at h
      cases rx with
      | rawStr s =>
          rw [keysList_foldlM_keys [s] DEFAULT_RUN_EXPORTS d h]
          rfl
      | rawList ss =>
          rw [keysList_foldlM_keys ss DEFAULT_RUN_EXPORTS d h]
          rfl
      | rawDict es =>
          cases h
          rw [show sanitizeDict es = es.foldl dictStep DEFAULT_RUN_EXPORTS from rfl,
            dict_foldl_keys es DEFAULT_RUN_EXPORTS]
          rfl
  · intro names irf ir lts
    exact get_run_exports_foldl_keys names irf ir lts DEFAULT_RUN_EXPORTS
  · intro specs irf ir core links r hcore h
    unfold MambaSolver_solve at h
    cases hm : specs.mapM _norm_spec with
    | error e =>
        rw [hm] at h
        exact Except.noConfusion h
    | ok ns =>
        rw [hm] at h
        simp only [hcore ns] at h
        injection h with h'
        rw [← h']
        exact ⟨rfl, rfl⟩

/-- C10 witness: a concrete aggregation keeps the three keys, and a
concrete unsatisfiable solve with run exports requested yields the
all-empty default bundle. -/
theorem claim_C10_witness :
    (MambaSolver_get_run_exports [str "zlib"] [] []
      [(str "zlib", mk3 [str "libzlib"] [] [])]).map Prod.fst = bucketKeys ∧
    (SolveRet.success
        ⟨false, some (str "no"), none, some DEFAULT_RUN_EXPORTS⟩ = false ∧
      SolveRet.run_exports
        ⟨false, some (str "no"), none, some DEFAULT_RUN_EXPORTS⟩ =
          some DEFAULT_RUN_EXPORTS) :=
  ⟨claim_C10.2.1 [str "zlib"] [] [] [(str "zlib", mk3 [str "libzlib"] [] [])],
   claim_C10.2.2.1 [] [] [] (fun _ => (false, str "no")) [] _ (fun _ => rfl) rfl⟩

theorem rxGet_mk3_weak (w s n : List Str) : rxGet (mk3 w s n) kWeak = w := rfl

theorem rxGet_mk3_strong (w s n : List Str) : rxGet (mk3 w s n) kStrong = s := rfl

theorem rxGet_mk3_noarch (w s n : List Str) : rxGet (mk3 w s n) kNoarch = n := rfl

theorem dictStep_weak (w s n vs : List Str) :
    dictStep (mk3 w s n) (kWeak, vs) = mk3 (setUpdate w vs) s n := by
  have hsw : ¬(kStrong = kWeak) := by decide
  have hnw : ¬(kNoarch = kWeak) := by decide
  simp [dictStep, rxUpdateBucket, rxUpdate, mk3, bucketKeys, hsw, hnw]

theorem dictStep_strong (w s n vs : List Str) :
    dictStep (mk3 w s n) (kStrong, vs) = mk3 w (setUpdate s vs) n := by
  have hws : ¬(kWeak = kStrong) := by decide
  have hns : ¬(kNoarch = kStrong) := by decide
  simp [dictStep, rxUpdateBucket, rxUpdate, mk3, bucketKeys, hws, hns]

theorem dictStep_noarch (w s n vs : List Str) :
    dictStep (mk3 w s n) (kNoarch, vs) = mk3 w s (setUpdate n vs) := by
  have hwn : ¬(kWeak = kNoarch) := by decide
  have hsn : ¬(kStrong = kNoarch) := by decide
  simp [dictStep, rxUpdateBucket, rxUpdate, mk3, bucketKeys, hwn, hsn]

theorem dictStep_other (w s n vs : List Str) {k : Str} (h : k ∉ bucketKeys) :
    dictStep (mk3 w s n) (k, vs) = mk3 (setAdd w k) s n := by
  have hsw : ¬(kStrong = kWeak) := by decide
  have hnw : ¬(kNoarch = kWeak) := by decide
  simp [dictStep, rxAddWeak, rxUpdate, mk3, h, hsw, hnw]

theorem dict_foldl_mem_weak (es : List (Str × List Str)) :
    ∀ (w s n : List Str) (x : Str),
      x ∈ rxGet (es.foldl dictStep (mk3 w s n)) kWeak ↔
        x ∈ w ∨ (∃ vs, (kWeak, vs) ∈ es ∧ x ∈ vs) ∨
          ∃ kv ∈ es, kv.1 ∉ bucketKeys ∧ x = kv.1 := by
  induction es with
  | nil =>
      intro w s n x
      simp [rxGet_mk3_weak]
  | cons kv t ih =>
      obtain ⟨k, vs⟩ := kv
      intro w s n x
      rw [List.foldl_cons]
      by_cases h1 : k = kWeak
      · subst h1
        rw [dictStep_weak, ih, mem_setUpdate]
        have hwk : kWeak ∈ bucketKeys := by decide
        simp only [List.mem_cons, Prod.mk.injEq, true_and, or_and_right,
          exists_or, exists_eq_left, hwk, not_true_eq_false, false_and,
          exists_and_left, false_or]
        itauto
      · by_cases h2 : k = kStrong
        · subst h2
          rw [dictStep_strong, ih]
          have hwk : ¬(kWeak = kStrong) := by decide
          have hsk : kStrong ∈ bucketKeys := by decide
          simp only [List.mem_cons, Prod.mk.injEq, hwk, false_and, false_or,
            hsk, not_true_eq_false, or_and_right, exists_or, exists_eq_left,
            exists_and_left]
        · by_cases h3 : k = kNoarch
          · subst h3
            rw [dictStep_noarch, ih]
            have hwk : ¬(kWeak = kNoarch) := by decide
            have hnk : kNoarch ∈ bucketKeys := by decide
            simp only [List.mem_cons, Prod.mk.injEq, hwk, false_and, false_or,
              hnk, not_true_eq_false, or_and_right, exists_or, exists_eq_left,
              exists_and_left]
          · have hk : k ∉ bucketKeys := by
              simp [bucketKeys, h1, h2, h3]
            rw [dictStep_other w s n vs hk, ih, mem_setAdd]
            have hwk : ¬(kWeak = k) := fun h => h1 h.symm
            simp only [List.mem_cons, Prod.mk.injEq, hwk, false_and, false_or,
              hk, not_false_eq_true, true_and, or_and_right, exists_or,
              exists_eq_left, exists_and_left]
            itauto

theorem dict_foldl_mem_strong (es : List (Str × List Str)) :
    ∀ (w s n : List Str) (x : Str),
      x ∈ rxGet (es.foldl dictStep (mk3 w s n)) kStrong ↔
        x ∈ s ∨ ∃ vs, (kStrong, vs) ∈ es ∧ x ∈ vs := by
  induction es with
  | nil =>
      intro w s n x
      simp [rxGet_mk3_strong]
  | cons kv t ih =>
      obtain ⟨k, vs⟩ := kv
      intro w s n x
      rw [List.foldl_cons]
      by_cases h1 : k = kWeak
      · subst h1
        rw [dictStep_weak, ih]
        have hsw : ¬(kStrong = kWeak) := by decide
        simp only [List.mem_cons, Prod.mk.injEq, hsw, false_and, false_or]
      · by_cases h2 : k = kStrong
        · subst h2
          rw [dictStep_strong, ih, mem_setUpdate]
          simp only [List.mem_cons, Prod.mk.injEq, true_and, or_and_right,
            exists_or, exists_eq_left]
          itauto
        · by_cases h3 : k = kNoarch
          · subst h3
            rw [dictStep_noarch, ih]
            have hsn : ¬(kStrong = kNoarch) := by decide
            simp only [List.mem_cons, Prod.mk.injEq, hsn, false_and, false_or]
          · have hk : k ∉ bucketKeys := by
              simp [bucketKeys, h1, h2, h3]
            rw [dictStep_other w s n vs hk, ih]
            have hsk : ¬(kStrong = k) := fun h => h2 h.symm
            simp only [List.mem_cons, Prod.mk.injEq, hsk, false_and, false_or]

theorem dict_foldl_mem_noarch (es : List (Str × List Str)) :
    ∀ (w s n : List Str) (x : Str),
      x ∈ rxGet (es.foldl dictStep (mk3 w s n)) kNoarch ↔
        x ∈ n ∨ ∃ vs, (kNoarch, vs) ∈ es ∧ x ∈ vs := by
  induction es with
  | nil =>
      intro w s n x
      simp [rxGet_mk3_noarch]
  | cons kv t ih =>
      obtain ⟨k, vs⟩ := kv
      intro w s n x
      rw [List.foldl_cons]
      by_cases h1 : k = kWeak
      · subst h1
        rw [dictStep_weak, ih]
        have hnw : ¬(kNoarch = kWeak) := by decide
        simp only [List.mem_cons, Prod.mk.injEq, hnw, false_and, false_or]
      · by_cases h2 : k = kStrong
        · subst h2
          rw [dictStep_strong, ih]
          have hns : ¬(kNoarch = kStrong) := by decide
          simp only [List.mem_cons, Prod.mk.injEq, hns, false_and, false_or]
        · by_cases h3 : k = kNoarch
          · subst h3
            rw [dictStep_noarch, ih, mem_setUpdate]
            simp only [List.mem_cons, Prod.mk.injEq, true_and, or_and_right,
              exists_or, exists_eq_left]
            itauto
          · have hk : k ∉ bucketKeys := by
              simp [bucketKeys, h1, h2, h3]
            rw [dictStep_other w s n vs hk, ih]
            have hnk : ¬(kNoarch = k) := fun h => h3 h.symm
            simp only [List.mem_cons, Prod.mk.injEq, hnk, false_and, false_or]

/-- C8 amended: a single-string declaration that is not itself one of the
three bucket names yields exactly one entry, placed in the `weak` bucket
(a string equal to a bucket name instead raises a `TypeError`); for a
mapping, values under the recognized keys `weak`, `strong` and `noarch`
are unioned into the corresponding buckets, and every unrecognized key
contributes the key name itself as a token in the `weak` bucket. -/
theorem claim_C8_amended :
    (∀ s : Str, s ≠ [] → s ∉ bucketKeys →
      _get_run_export_sanitize (.rawStr s) = .ok (mk3 [s] [] [])) ∧
    (∀ s : Str, s ∈ bucketKeys →
      ∃ e, _get_run_export_sanitize (.rawStr s) = .error e) ∧
    (∀ es : List (Str × List Str),
      _get_run_export_sanitize (.rawDict es) = .ok (sanitizeDict es)) ∧
    (∀ (es : List (Str × List Str)) (x : Str),
      (x ∈ rxGet (sanitizeDict es) kWeak ↔
        (∃ vs, (kWeak, vs) ∈ es ∧ x ∈ vs) ∨
          ∃ kv ∈ es, kv.1 ∉ bucketKeys ∧ x = kv.1) ∧
      (x ∈ rxGet (sanitizeDict es) kStrong ↔
        ∃ vs, (kStrong, vs) ∈ es ∧ x ∈ vs) ∧
      (x ∈ rxGet (sanitizeDict es) kNoarch ↔
        ∃ vs, (kNoarch, vs) ∈ es ∧ x ∈ vs)) := by
  refine ⟨?_, ?_, ?_, ?_⟩
  · intro s hne hnb
    have ht : ¬(rxTruthy (.rawStr s) = false) := by simp [rxTruthy, hne]
    unfold _get_run_export_sanitize
    rw [if_neg ht]
    have hsw : ¬(kStrong = kWeak) := by decide
    have hnw : ¬(kNoarch = kWeak) := by decide
    simp [sanitizeKeysList, listStep, hnb, rxAddWeak, rxUpdate,
      DEFAULT_RUN_EXPORTS, mk3, setAdd, hsw, hnw]
  · intro s hb
    have hne : s ≠ [] := by
      rintro rfl
      revert hb
      decide
    have ht : ¬(rxTruthy (.rawStr s) = false) := by simp [rxTruthy, hne]
    refine ⟨"TypeError: list indices must be integers or slices, not str", ?_⟩
    unfold _get_run_export_sanitize
    rw [if_neg ht]
    simp only [sanitizeKeysList, List.foldlM_cons, listStep, if_pos hb]
    rfl
  · intro es
    by_cases he : es = []
    · subst he
      rfl
    · have ht : ¬(rxTruthy (.rawDict es) = false) := by simp [rxTruthy, he]
      unfold _get_run_export_sanitize
      rw [if_neg ht]
  · intro es x
    rw [show sanitizeDict es = es.foldl dictStep (mk3 [] [] []) from rfl]
    refine ⟨?_, ?_, ?_⟩
    · have h := dict_foldl_mem_weak es [] [] [] x
      simpa using h
    · have h := dict_foldl_mem_strong es [] [] [] x
      simpa using h
    · have h := dict_foldl_mem_noarch es [] [] [] x
      simpa using h

/-- C8 amended witness: a concrete single-string declaration lands as the
sole `weak` entry, and a concrete mapping with one unrecognized key
contributes that key to the `weak` bucket. -/
theorem claim_C8_amended_witness :
    _get_run_export_sanitize (.rawStr (str "libfoo")) =
      .ok (mk3 [str "libfoo"] [] []) ∧
    (str "badkey" ∈
      rxGet (sanitizeDict [(str "badkey", [str "v"])]) kWeak ↔
      (∃ vs, (kWeak, vs) ∈ [(str "badkey", [str "v"])] ∧ str "badkey" ∈ vs) ∨
        ∃ kv ∈ [(str "badkey", [str "v"])], kv.1 ∉ bucketKeys ∧
          str "badkey" = kv.1) :=
  ⟨claim_C8_amended.1 (str "libfoo") (by decide) (by decide),
   (claim_C8_amended.2.2.2 [(str "badkey", [str "v"])] (str "badkey")).1⟩

theorem count_filter_of_pos {x : Str} {p : Str → Bool} (l : List Str)
    (h : p x = true) : (l.filter p).count x = l.count x := by
  induction l with
  | nil => rfl
  | cons a t ih =>
      by_cases ha : p a = true
      · rw [List.filter_cons_of_pos ha, List.count_cons, List.count_cons, ih]
      · rw [List.filter_cons_of_neg (by simpa using ha), List.count_cons, ih]
        have hax : ¬(a == x) = true := by
          intro hab
          exact ha ((beq_iff_eq.mp hab) ▸ h)
        simp [hax]

theorem clean_reqs_append (a b names : List Str) :
    _clean_reqs (a ++ b) names = _clean_reqs a names ++ _clean_reqs b names := by
  simp [_clean_reqs, List.filter_append]

theorem count_clean_reqs_of_clean {x : Str} {names : List Str} (l : List Str)
    (h : firstToken x ∉ names) : (_clean_reqs l names).count x = l.count x := by
  unfold _clean_reqs
  apply count_filter_of_pos
  simpa using h

/-- C4 amended: the requirement list passed to the test-phase solve is the
self-reference-cleaned concatenation of the declared test requirements and
the run-phase requirement list.  Every run-phase requirement whose name is
not a declared output name therefore appears in it — but with multiplicity
equal to its multiplicity among the (cleaned) declared test requirements
plus its multiplicity in the run-phase list: duplicates are not removed,
so a dependency also declared as a test requirement appears more than
once. -/
theorem claim_C4_amended (outnames tr trr run_req : List Str)
    (s : SolverOracle) (x : Str) (hx : x ∈ run_req)
    (hclean : firstToken x ∉ outnames) :
    ∃ tc, (testPhase outnames (tr ++ trr ++ run_req) s).reqs = [tc] ∧
      x ∈ tc ∧
      tc.count x =
        (_clean_reqs (tr ++ trr) outnames).count x + run_req.count x := by
  have hmem : x ∈ tr ++ trr ++ run_req := by
    simp [hx]
  have hne : tr ++ trr ++ run_req ≠ [] := by
    intro habs
    rw [habs] at hmem
    simp at hmem
  refine ⟨_clean_reqs (tr ++ trr ++ run_req) outnames, ?_, ?_, ?_⟩
  · unfold testPhase
    rw [if_neg hne]
  · exact mem_clean_reqs.mpr ⟨hmem, hclean⟩
  · rw [clean_reqs_append, List.count_append,
      count_clean_reqs_of_clean run_req hclean]

/-- C4 amended witness: with `"numpy"` declared both as a test requirement
and present in the run-phase list, the test-phase solve input carries it
with multiplicity `1 + 1 = 2`. -/
theorem claim_C4_amended_witness :
    ∃ tc, (testPhase [str "out"] ([str "numpy"] ++ [] ++ [str "numpy"])
        (fun _ => ⟨true, none, some [], DEFAULT_RUN_EXPORTS⟩)).reqs = [tc] ∧
      str "numpy" ∈ tc ∧
      tc.count (str "numpy") =
        (_clean_reqs ([str "numpy"] ++ []) [str "out"]).count (str "numpy") +
          [str "numpy"].count (str "numpy") :=
  claim_C4_amended [str "out"] [str "numpy"] [] [str "numpy"]
    (fun _ => ⟨true, none, some [], DEFAULT_RUN_EXPORTS⟩) (str "numpy")
    (by decide) (by decide)

theorem buildPhase_reqs_clean (outnames : List Str) (m : MetaFlags)
    (r : OutputReqs) (bs : SolverOracle) :
    ∀ q ∈ (buildPhase outnames m r bs).reqs, ∀ x ∈ q,
      firstToken x ∉ outnames := by
  intro q hq x hx
  unfold buildPhase at hq
  split at hq
  · simp at hq
  · simp only [List.mem_singleton] at hq
    subst hq
    exact (mem_clean_reqs.mp hx).2

theorem hostPhase_reqs_clean (outnames : List Str) (m : MetaFlags)
    (host_req run_req : List Str) (s : SolverOracle) :
    ∀ q ∈ (hostPhase outnames m host_req run_req s).reqs, ∀ x ∈ q,
      firstToken x ∉ outnames := by
  intro q hq x hx
  unfold hostPhase at hq
  split at hq
  · simp at hq
  · simp only [List.mem_singleton] at hq
    subst hq
    exact (mem_clean_reqs.mp hx).2

theorem runPhase_reqs_clean (outnames : List Str) (m : MetaFlags)
    (run_req h_pins b_pins : List Str) (s : SolverOracle) (pin : PinOracle) :
    ∀ q ∈ (runPhase outnames m run_req h_pins b_pins s pin).reqs, ∀ x ∈ q,
      firstToken x ∉ outnames := by
  intro q hq x hx
  unfold runPhase at hq
  split at hq
  · simp at hq
  · simp only [List.mem_singleton] at hq
    subst hq
    exact (mem_clean_reqs.mp hx).2

theorem testPhase_reqs_clean (outnames : List Str) (tst_req : List Str)
    (s : SolverOracle) :
    ∀ q ∈ (testPhase outnames tst_req s).reqs, ∀ x ∈ q,
      firstToken x ∉ outnames := by
  intro q hq x hx
  unfold testPhase at hq
  split at hq
  · simp at hq
  · simp only [List.mem_singleton] at hq
    subst hq
    exact (mem_clean_reqs.mp hx).2

/-- C5: for every phase of every output, every requirement list actually
passed to a solver by the engine is free of requirements whose package
name (first space-separated token) is one of the recipe's declared output
names. -/
theorem claim_C5 (outnames : List Str) (m : MetaFlags) (r : OutputReqs)
    (bs s : SolverOracle) (pin : PinOracle) :
    ∀ req ∈ (checkOutput outnames m r bs s pin).2.2, ∀ x ∈ req,
      ∀ nm ∈ outnames, firstToken x ≠ nm := by
  intro req hreq x hx nm hnm heq
  have hnot : firstToken x ∉ outnames := by
    simp only [checkOutput, List.mem_append] at hreq
    rcases hreq with ((hb | hh) | hr) | ht
    · exact buildPhase_reqs_clean _ _ _ _ req hb x hx
    · exact hostPhase_reqs_clean _ _ _ _ _ req hh x hx
    · exact runPhase_reqs_clean _ _ _ _ _ _ _ req hr x hx
    · exact testPhase_reqs_clean _ _ _ req ht x hx
  exact hnot (heq ▸ hnm)

/-- C5 witness: in a concrete run, the run-phase solve input `["numpy"]`
contains no requirement naming the declared output `"out"`. -/
theorem claim_C5_witness :
    firstToken (str "numpy") ≠ str "out" :=
  claim_C5 [str "out"] ⟨false, false, false, false⟩
    ⟨[], [], [str "numpy"], [str "numpy"], []⟩
    (fun _ => ⟨true, none, some [], DEFAULT_RUN_EXPORTS⟩)
    (fun _ => ⟨true, none, some [], DEFAULT_RUN_EXPORTS⟩)
    (fun _ _ => none)
    [str "numpy"] (by decide) (str "numpy") (by decide) (str "out") (by decide)

theorem splitOnChar_two_of_mem {c : Char} {s : Str} (h : c ∈ s) :
    ∃ p a t, splitOnChar c s = p :: a :: t := by
  induction s with
  | nil => simp at h
  | cons x rest ih =>
      by_cases hx : x = c
      · subst hx
        rcases hr : splitOnChar x rest with _ | ⟨hd, tl⟩
        · exact absurd hr (splitOnChar_ne_nil x rest)
        · exact ⟨[], hd, tl, by simp [splitOnChar, hr]⟩
      · have hc : c ∈ rest := by
          rcases List.mem_cons.mp h with rfl | hmem
          · exact absurd rfl hx
          · exact hmem
        obtain ⟨p, a, t, heq⟩ := ih hc
        refine ⟨x :: p, a, t, ?_⟩
        simp only [splitOnChar, heq]
        rw [if_neg hx]

theorem derivePlatformArch_ok {cbc : Str} (h : '_' ∈ cbc) :
    ∃ pa, derivePlatformArch cbc = .ok pa := by
  obtain ⟨p, a, t, heq⟩ := splitOnChar_two_of_mem h
  exact ⟨(p, if a ∈ knownArchs then a else str "64"),
    by unfold derivePlatformArch; rw [heq]⟩

theorem driver_fold_ok (v : VariantOracle) (cbcs : List Str)
    (h : ∀ cbc ∈ cbcs, '_' ∈ cbc) :
    ∀ acc : CheckTriple,
      ∃ res, cbcs.foldlM (driverStep v) acc = .ok res ∧
        res.2.2.length = acc.2.2.length + cbcs.length := by
  induction cbcs with
  | nil =>
      intro acc
      exact ⟨acc, rfl, by simp⟩
  | cons cbc t ih =>
      intro acc
      obtain ⟨pa, hpa⟩ := derivePlatformArch_ok (h cbc (List.mem_cons_self cbc t))
      have hstep : driverStep v acc cbc =
          .ok (acc.1 && (v cbc pa.1 pa.2).1,
               acc.2.1 ++ ((v cbc pa.1 pa.2).2).map
                 (fun e => stripLastDotSuffix cbc ++ str ": " ++ e),
               acc.2.2 ++ [(stripLastDotSuffix cbc, (v cbc pa.1 pa.2).1)]) := by
        unfold driverStep
        rw [hpa]
      obtain ⟨res, hres, hlen⟩ :=
        ih (fun c hc => h c (List.mem_cons_of_mem cbc hc))
          (acc.1 && (v cbc pa.1 pa.2).1,
           acc.2.1 ++ ((v cbc pa.1 pa.2).2).map
             (fun e => stripLastDotSuffix cbc ++ str ": " ++ e),
           acc.2.2 ++ [(stripLastDotSuffix cbc, (v cbc pa.1 pa.2).1)])
      refine ⟨res, ?_, ?_⟩
      · rw [List.foldlM_cons, hstep]
        exact hres
      · rw [hlen]
        simp [List.length_append]
        omega

/-- C6 amended: the driver returns a well-formed
`(solvable, errors, solvable_by_variant)` triple for every input in which
each variant-configuration basename contains at least one underscore (and
when it reaches the variant loop it records one verdict per variant); for
a basename with no underscore, the platform/architecture derivation
raises an index error that escapes the driver (caught one level up by the
bounded-execution wrapper). -/
theorem claim_C6_amended (cbcs : List Str) (has_meta : Bool)
    (v : VariantOracle) (h : ∀ cbc ∈ cbcs, '_' ∈ cbc) :
    ∃ res, _is_recipe_solvable cbcs has_meta v = .ok res ∧
      (cbcs.length ≠ 0 → has_meta = true → res.2.2.length = cbcs.length) := by
  unfold _is_recipe_solvable
  by_cases hlen : cbcs.length = 0
  · rw [if_pos hlen]
    exact ⟨(false, [errNoCbc], []), rfl, fun habs _ => absurd hlen habs⟩
  · rw [if_neg hlen]
    by_cases hm : has_meta = false
    · rw [if_pos hm]
      exact ⟨(false, [errNoMeta], []), rfl,
        fun _ htrue => absurd (htrue ▸ hm) (by simp)⟩
    · rw [if_neg hm]
      obtain ⟨res, hres, hreslen⟩ := driver_fold_ok v cbcs h (true, [], [])
      exact ⟨res, hres, fun _ _ => by simpa using hreslen⟩

/-- C6 amended witness: a concrete two-variant input, both basenames
containing underscores, yields an `ok` triple with one verdict per
variant. -/
theorem claim_C6_amended_witness :
    ∃ res, _is_recipe_solvable [str "linux_64_.yaml", str "osx_64_.yaml"] true
        (fun _ _ _ => (true, [])) = .ok res ∧
      (([str "linux_64_.yaml", str "osx_64_.yaml"] : List Str).length ≠ 0 →
        true = true →
        res.2.2.length =
          ([str "linux_64_.yaml", str "osx_64_.yaml"] : List Str).length) :=
  claim_C6_amended [str "linux_64_.yaml", str "osx_64_.yaml"] true
    (fun _ _ _ => (true, [])) (by decide)
